import Mathlib

/-!
Shallow embedding of the drought-risk inference app
(`Streamlit_App_Classification_Model/app.py`).

The pixel samples of a raster may be NaN or infinite (numpy float semantics),
so sample values are modelled by `Val`: a finite rational, NaN, +inf or -inf.
The raster itself is a band/row/column-indexed grid of such values.
-/

namespace DroughtApp

/-- A raster sample value: a finite number, NaN, or an infinity
(the distinctions the code tests with `np.isnan` / `np.isinf`). -/
inductive Val where
  | fin (q : ℚ)
  | nan
  | inf
  | ninf
deriving DecidableEq, Repr

/-- The test `np.isnan(v) or np.isinf(v)` is false exactly on finite values. -/
def Val.isFinite : Val → Bool
  | .fin _ => true
  | _ => false

/-- The numeric content of a finite value (0 as a don't-care for non-finite
values; it is only read after the finiteness check has passed). -/
def Val.toRat : Val → ℚ
  | .fin q => q
  | _ => 0

/-- An in-memory raster: `height`, `width`, `count` bands, and the sample grid
`data b i j` (band `b` 0-indexed, row `i`, column `j`).  `src.read(k)` of
rasterio reads 1-indexed band `k`, i.e. `data (k-1)`. -/
structure Raster where
  height : ℕ
  width : ℕ
  bandCount : ℕ
  data : ℕ → ℕ → ℕ → Val

/-- A rasterio `Window(col_off, row_off, width, height)`. -/
structure Window where
  col_off : ℕ
  row_off : ℕ
  width : ℕ
  height : ℕ
deriving DecidableEq, Repr

/-- Pixel (row `i`, col `j`) lies inside the window. -/
def Window.Contains (wd : Window) (i j : ℕ) : Prop :=
  wd.row_off ≤ i ∧ i < wd.row_off + wd.height ∧
  wd.col_off ≤ j ∧ j < wd.col_off + wd.width

instance (wd : Window) (i j : ℕ) : Decidable (wd.Contains i j) := by
  unfold Window.Contains; infer_instance

/-- Boolean containment test, for counting. -/
def Window.containsb (wd : Window) (i j : ℕ) : Bool :=
  decide (wd.Contains i j)

/-- Python `range(0, stop, step)`: `0, step, 2*step, …` below `stop`
(for `step ≥ 1` there are `⌈stop/step⌉` elements). -/
def rangeStep (stop step : ℕ) : List ℕ :=
  (List.range ((stop + step - 1) / step)).map (· * step)

/-- The window built in the loop body:
`Window(x, y, min(chunk_size, width - x), min(chunk_size, height - y))`. -/
def mkWindow (chunk w h x y : ℕ) : Window :=
  ⟨x, y, min chunk (w - x), min chunk (h - y)⟩

/-- The row-major window enumeration of `predict_geotiff`:
`for y in range(0, height, chunk_size): for x in range(0, width, chunk_size)`. -/
def windows (h w chunk : ℕ) : List Window :=
  (rangeStep h chunk).flatMap fun y =>
    (rangeStep w chunk).map fun x => mkWindow chunk w h x y

lemma lt_ceilDiv_iff {stop step k : ℕ} (hstep : 1 ≤ step) :
    k < (stop + step - 1) / step ↔ k * step < stop := by
  rw [Nat.lt_iff_add_one_le, Nat.le_div_iff_mul_le hstep]
  have h : (k + 1) * step = k * step + step := by ring
  omega

lemma mem_rangeStep {stop step y : ℕ} (hstep : 1 ≤ step) :
    y ∈ rangeStep stop step ↔ ∃ k, y = k * step ∧ y < stop := by
  unfold rangeStep
  simp only [List.mem_map, List.mem_range]
  constructor
  · rintro ⟨k, hk, rfl⟩
    exact ⟨k, rfl, (lt_ceilDiv_iff hstep).1 hk⟩
  · rintro ⟨k, rfl, hlt⟩
    exact ⟨k, (lt_ceilDiv_iff hstep).2 hlt, rfl⟩

lemma rangeStep_nodup (stop step : ℕ) (hstep : 1 ≤ step) :
    (rangeStep stop step).Nodup := by
  unfold rangeStep
  exact (List.nodup_range _).map fun a b h => by
    have : a * step = b * step := h
    exact Nat.eq_of_mul_eq_mul_right hstep this

/-- The unique grid origin at or below `i`: `(i / c) * c`. -/
lemma rangeStep_cover {stop step i : ℕ} (hstep : 1 ≤ step) (hi : i < stop) :
    (i / step) * step ∈ rangeStep stop step := by
  rw [mem_rangeStep hstep]
  exact ⟨i / step, rfl, lt_of_le_of_lt (Nat.div_mul_le_self i step) hi⟩

lemma div_mul_le_self' (i step : ℕ) : (i / step) * step ≤ i :=
  Nat.div_mul_le_self i step

lemma lt_div_mul_add (i step : ℕ) (hstep : 1 ≤ step) :
    i < (i / step) * step + step := by
  have h1 : i / step * step + i % step = i := Nat.div_add_mod' i step
  have h2 : i % step < step := Nat.mod_lt i hstep
  omega

/-- Among the multiples of `step` below `stop`, only `(i/step)*step` satisfies
`y ≤ i < y + min step (stop - y)` (given `i < stop`). -/
lemma rangeStep_unique {stop step i y : ℕ} (hstep : 1 ≤ step) (hi : i < stop)
    (hy : y ∈ rangeStep stop step)
    (h1 : y ≤ i) (h2 : i < y + min step (stop - y)) :
    y = (i / step) * step := by
  rw [mem_rangeStep hstep] at hy
  obtain ⟨k, rfl, hlt⟩ := hy
  have hmin : min step (stop - k * step) ≤ step := min_le_left _ _
  have h2' : i < k * step + step := by omega
  have hk : i / step = k := Nat.div_eq_of_lt_le h1 (by
    have h3 : (k + 1) * step = k * step + step := by ring
    omega)
  rw [hk]

lemma countP_eq_one_unique {α : Type} {l : List α} {p : α → Bool} {a : α}
    (hnd : l.Nodup) (ha : a ∈ l) (huniq : ∀ b ∈ l, (p b = true ↔ b = a)) :
    l.countP p = 1 := by
  induction l with
  | nil => cases ha
  | cons b l ih =>
    rcases List.mem_cons.1 ha with rfl | hal
    · rw [List.countP_cons, ((huniq a (.head _)).2 rfl : p a = true)]
      have hz : l.countP p = 0 := List.countP_eq_zero.2 fun x hx hpx =>
        (List.nodup_cons.1 hnd).1 (((huniq x (.tail _ hx)).1 hpx) ▸ hx)
      simp [hz]
    · have hba : b ≠ a := fun h => (List.nodup_cons.1 hnd).1 (h ▸ hal)
      rw [List.countP_cons]
      have hpb : ¬ p b = true := fun h => hba ((huniq b (.head _)).1 h)
      simp only [hpb, if_false]
      exact ih (List.nodup_cons.1 hnd).2 hal fun x hx => huniq x (.tail _ hx)

lemma windows_nodup (h w c : ℕ) (hc : 1 ≤ c) : (windows h w c).Nodup := by
  unfold windows
  rw [List.nodup_flatMap]
  refine ⟨fun y _ => ?_, ?_⟩
  · exact (rangeStep_nodup w c hc).map fun x₁ x₂ hx => congrArg Window.col_off hx
  · refine List.Pairwise.imp ?_ (rangeStep_nodup h c hc)
    intro y₁ y₂ hne
    intro wd h₁ h₂
    simp only [List.mem_map] at h₁ h₂
    obtain ⟨x₁, _, rfl⟩ := h₁
    obtain ⟨x₂, _, h⟩ := h₂
    exact hne (congrArg Window.row_off h).symm

lemma mem_windows {h w c : ℕ} {wd : Window} (hc : 1 ≤ c) :
    wd ∈ windows h w c ↔
      ∃ y ∈ rangeStep h c, ∃ x ∈ rangeStep w c, wd = mkWindow c w h x y := by
  unfold windows
  simp only [List.mem_flatMap, List.mem_map]
  constructor
  · rintro ⟨y, hy, x, hx, rfl⟩; exact ⟨y, hy, x, hx, rfl⟩
  · rintro ⟨y, hy, x, hx, rfl⟩; exact ⟨y, hy, x, hx, rfl⟩

/-- The window of the enumeration containing pixel `(i, j)`: origin at the
grid point at or below each coordinate. -/
def windowAt (h w c i j : ℕ) : Window :=
  mkWindow c w h ((j / c) * c) ((i / c) * c)

lemma windowAt_mem {h w c i j : ℕ} (hc : 1 ≤ c) (hi : i < h) (hj : j < w) :
    windowAt h w c i j ∈ windows h w c :=
  (mem_windows hc).2
    ⟨(i / c) * c, rangeStep_cover hc hi, (j / c) * c, rangeStep_cover hc hj, rfl⟩

lemma windowAt_contains {h w c i j : ℕ} (hc : 1 ≤ c) (hi : i < h) (hj : j < w) :
    (windowAt h w c i j).Contains i j := by
  refine ⟨div_mul_le_self' i c, ?_, div_mul_le_self' j c, ?_⟩ <;>
    · simp only [windowAt, mkWindow]
      have h₁ := lt_div_mul_add i c hc
      have h₂ := lt_div_mul_add j c hc
      have h₃ := div_mul_le_self' i c
      have h₄ := div_mul_le_self' j c
      omega

lemma contains_eq_windowAt {h w c i j : ℕ} {wd : Window} (hc : 1 ≤ c)
    (hi : i < h) (hj : j < w) (hmem : wd ∈ windows h w c)
    (hcont : wd.Contains i j) : wd = windowAt h w c i j := by
  obtain ⟨y, hy, x, hx, rfl⟩ := (mem_windows hc).1 hmem
  obtain ⟨h₁, h₂, h₃, h₄⟩ := hcont
  have hy' : y = (i / c) * c := rangeStep_unique hc hi hy h₁ h₂
  have hx' : x = (j / c) * c := rangeStep_unique hc hj hx h₃ h₄
  rw [windowAt, hy', hx']

lemma windows_bounds {h w c : ℕ} {wd : Window} (hc : 1 ≤ c)
    (hmem : wd ∈ windows h w c) :
    wd.row_off + wd.height ≤ h ∧ wd.col_off + wd.width ≤ w ∧
    1 ≤ wd.height ∧ 1 ≤ wd.width ∧
    wd.height = min c (h - wd.row_off) ∧ wd.width = min c (w - wd.col_off) := by
  obtain ⟨y, hy, x, hx, rfl⟩ := (mem_windows hc).1 hmem
  obtain ⟨k₁, hkeq₁, hy'⟩ := (mem_rangeStep hc).1 hy
  obtain ⟨k₂, hkeq₂, hx'⟩ := (mem_rangeStep hc).1 hx
  have e₁ : y + (h - y) = h := Nat.add_sub_cancel' hy'.le
  have e₂ : x + (w - x) = w := Nat.add_sub_cancel' hx'.le
  refine ⟨?_, ?_, le_min hc (by omega), le_min hc (by omega), rfl, rfl⟩
  · exact le_trans (Nat.add_le_add_left (min_le_right c (h - y)) y) e₁.le
  · exact le_trans (Nat.add_le_add_left (min_le_right c (w - x)) x) e₂.le

lemma windows_countP_one {h w c i j : ℕ} (hc : 1 ≤ c) (hi : i < h) (hj : j < w) :
    (windows h w c).countP (fun wd => wd.containsb i j) = 1 := by
  refine countP_eq_one_unique (windows_nodup h w c hc)
    (windowAt_mem hc hi hj) fun wd hwd => ?_
  simp only [Window.containsb, decide_eq_true_eq]
  constructor
  · exact fun hcont => contains_eq_windowAt hc hi hj hwd hcont
  · rintro rfl; exact windowAt_contains hc hi hj

/-- C1: for any raster height `h ≥ 1`, width `w ≥ 1` and chunk size `c ≥ 1`,
the windows enumerated by `predict_geotiff`'s tiled loop (origins row-major at
multiples of `c`, each window's width `min c (w - x)` and height
`min c (h - y)`) partition the `h × w` pixel grid exactly: every pixel lies in
exactly one window, no window extends out of bounds, and edge windows are
clipped (nonempty, sized to the remaining extent) rather than padded. -/
theorem tiling_partition (h w c : ℕ) (hh : 1 ≤ h) (hw : 1 ≤ w) (hc : 1 ≤ c) :
    (∀ i < h, ∀ j < w,
      (windows h w c).countP (fun wd => wd.containsb i j) = 1) ∧
    (∀ wd ∈ windows h w c,
      wd.row_off + wd.height ≤ h ∧ wd.col_off + wd.width ≤ w ∧
      1 ≤ wd.height ∧ 1 ≤ wd.width ∧
      wd.height = min c (h - wd.row_off) ∧ wd.width = min c (w - wd.col_off)) :=
  ⟨fun i hi j hj => windows_countP_one hc hi hj,
   fun _ hwd => windows_bounds hc hwd⟩

/-- Witness for C1 at `h = 3`, `w = 3`, `c = 2`. -/
theorem tiling_partition_witness :
    ((1:ℕ) ≤ 3 ∧ (1:ℕ) ≤ 3 ∧ (1:ℕ) ≤ 2) ∧
    ((∀ i < 3, ∀ j < 3,
        (windows 3 3 2).countP (fun wd => wd.containsb i j) = 1) ∧
     (∀ wd ∈ windows 3 3 2,
        wd.row_off + wd.height ≤ 3 ∧ wd.col_off + wd.width ≤ 3 ∧
        1 ≤ wd.height ∧ 1 ≤ wd.width ∧
        wd.height = min 2 (3 - wd.row_off) ∧
        wd.width = min 2 (3 - wd.col_off))) :=
  ⟨⟨by decide, by decide, by decide⟩,
   tiling_partition 3 3 2 (by decide) (by decide) (by decide)⟩

/-! ## The inference pipeline of `predict_geotiff` -/

/-- The feature vector of pixel `(i, j)`: row `(i,j)` of
`data[1:, :, :].reshape(band_count - 1, -1).T` — the first band (0-indexed
band 0) is dropped and the remaining `band_count - 1` bands are listed in
order, i.e. 0-indexed bands `1 .. band_count - 1`. -/
def featuresAt (r : Raster) (i j : ℕ) : List Val :=
  (List.range (r.bandCount - 1)).map fun b => r.data (b + 1) i j

/-- The feature matrix of a window: `data[1:].reshape(band_count-1, -1).T`,
one feature vector per pixel of the window in row-major pixel order. -/
def windowFeatures (r : Raster) (wd : Window) : List (List Val) :=
  (List.range wd.height).flatMap fun a =>
    (List.range wd.width).map fun b =>
      featuresAt r (wd.row_off + a) (wd.col_off + b)

/-- The validity test `np.isnan(features).any() or np.isinf(features).any()`. -/
def windowHasInvalid (r : Raster) (wd : Window) : Bool :=
  (windowFeatures r wd).any fun fv => fv.any fun v => ! v.isFinite

/-- The logistic transform `1 / (1 + np.exp(-d))` applied to a decision
score. -/
noncomputable def logistic (d : ℝ) : ℝ := 1 / (1 + Real.exp (-d))

/-- The pre-fitted `{scaler, model}` pair loaded from the pickle: the scaler's
`transform` maps a raw feature vector to a normalized one row-by-row, and
`decision_function` maps a normalized vector to a scalar decision value. -/
structure ModelPair where
  scaler : List ℚ → List ℚ
  decision : List ℚ → ℝ

/-- The per-pixel score: normalize, take the decision value, apply the
logistic transform. -/
noncomputable def scoreFeature (mp : ModelPair) (fv : List Val) : ℝ :=
  logistic (mp.decision (mp.scaler (fv.map Val.toRat)))

/-- The window's probability list (`probabilities` before the reshape),
in row-major pixel order. -/
noncomputable def windowProbs (mp : ModelPair) (r : Raster) (wd : Window) :
    List ℝ :=
  (windowFeatures r wd).map (scoreFeature mp)

/-- The write `probability_predictions[y:y+window.height, x:x+window.width] =
probabilities.reshape((window.height, window.width))`: inside the window the
surface takes the row-major entry of the probability list, elsewhere it is
unchanged. -/
def writeWindow (surf : ℕ → ℕ → ℝ) (wd : Window) (probs : List ℝ) :
    ℕ → ℕ → ℝ :=
  fun i j =>
    if wd.Contains i j then
      probs.getD ((i - wd.row_off) * wd.width + (j - wd.col_off)) 0
    else surf i j

/-- Modelled from the spec: the pre-fitted Scaler bundled in `model-svm.pkl`
(the artifact is loaded from outside the repository) is "an immutable,
pre-fitted transform with a fixed expected input width (10)".  Its
`transform` raises on feature rows of any other width, and the raise is
caught by the outer `except` of `predict_geotiff`, which aborts the run with
the generic processing-error message. -/
def scalerWidth : ℕ := 10

/-- The width check `scaler.transform` performs on the window's feature
matrix: every feature row must have exactly `scalerWidth` entries
(the matrix width is `band_count - 1`, so this holds iff the raster has
exactly 11 bands). -/
def windowWidthOk (r : Raster) (wd : Window) : Bool :=
  (windowFeatures r wd).all fun fv => fv.length == scalerWidth

/-- The error taxonomy of the run: a raster with too few bands
(`"Image has N bands, but at least 11 are required."`), NaN/infinite
feature data (`"Invalid (NaN or infinite) values found in input data."`),
or an exception caught by the outer `except` — in this model, the width
mismatch raised by `scaler.transform`
(`"Error processing image: ..."`). -/
inductive PredictError where
  | bandCountError
  | invalidInputError
  | processingError
deriving DecidableEq, Repr

/-- The chunk loop: process windows in order; on invalid data abort the
entire run with the invalid-input error (line 178, checked first); on a
feature-width mismatch at `scaler.transform` abort with the generic
processing error (line 183); otherwise write the window's probabilities and
continue.  Either abort discards the surface being assembled. -/
noncomputable def runWindows (mp : ModelPair) (r : Raster) (ws : List Window)
    (surf : ℕ → ℕ → ℝ) : Except PredictError (ℕ → ℕ → ℝ) :=
  match ws with
  | [] => .ok surf
  | wd :: rest =>
      if windowHasInvalid r wd then .error .invalidInputError
      else if windowWidthOk r wd then
        runWindows mp r rest (writeWindow surf wd (windowProbs mp r wd))
      else .error .processingError

/-! ## `get_rgb_image` -/

/-- The 0-indexed raster band shown on each display channel:
`src.read(7)` → red, `src.read(4)` → green, `src.read(3)` → blue
(rasterio `read` is 1-indexed). -/
def rgbBand : Fin 3 → ℕ
  | 0 => 6
  | 1 => 3
  | 2 => 2

/-- All sample values of `np.dstack((red, green, blue))`. -/
def rgbVals (r : Raster) : List Val :=
  (List.range r.height).flatMap fun i =>
    (List.range r.width).flatMap fun j =>
      [r.data 6 i j, r.data 3 i j, r.data 2 i j]

/-- The minimum of a list of rationals (0 as the don't-care value of an empty
list). -/
def listMin : List ℚ → ℚ
  | [] => 0
  | q :: qs => qs.foldl min q

/-- The maximum of a list of rationals (0 as the don't-care value of an empty
list). -/
def listMax : List ℚ → ℚ
  | [] => 0
  | q :: qs => qs.foldl max q

/-- Model of `np.nanmin`: the minimum over the finite samples (the NaN-ignoring
minimum; the don't-care value only arises when no finite sample exists, in
which case the `rgb_max > rgb_min` test below is false exactly as in numpy,
where the comparison of NaNs is false). -/
def nanminD (l : List Val) : ℚ :=
  listMin ((l.filter fun v => v.isFinite).map Val.toRat)

/-- Model of `np.nanmax`, analogously. -/
def nanmaxD (l : List Val) : ℚ :=
  listMax ((l.filter fun v => v.isFinite).map Val.toRat)

/-- Model of `get_rgb_image`: stack bands 7, 4, 3 and rescale by the global value range
across all three channels; a flat range yields the all-zero image. -/
def getRgbImage (r : Raster) : ℕ → ℕ → Fin 3 → ℚ :=
  let mn := nanminD (rgbVals r)
  let mx := nanmaxD (rgbVals r)
  if mn < mx then
    fun i j ch => ((r.data (rgbBand ch) i j).toRat - mn) / (mx - mn)
  else fun _ _ _ => 0

/-- Model of `predict_geotiff`: band-count check, composite image, then the chunk loop
over an all-zero float32 surface. Returns the composite image and the
probability surface. -/
noncomputable def predictGeotiff (mp : ModelPair) (r : Raster) (chunk : ℕ) :
    Except PredictError ((ℕ → ℕ → Fin 3 → ℚ) × (ℕ → ℕ → ℝ)) :=
  if r.bandCount < 11 then .error .bandCountError
  else
    match runWindows mp r (windows r.height r.width chunk) (fun _ _ => 0) with
    | .error e => .error e
    | .ok surf => .ok (getRgbImage r, surf)

/-- The row-major flattening of the probability surface
(`probability_predictions.flatten()`). -/
def surfaceFlatten (surf : ℕ → ℕ → ℝ) (h w : ℕ) : List ℝ :=
  (List.range h).flatMap fun i => (List.range w).map fun j => surf i j

/-- All feature-band samples inside the raster are finite: no NaN and no
infinity in 0-indexed bands `1 .. band_count - 1` at in-bounds pixels. -/
def FeatureBandsFinite (r : Raster) : Prop :=
  ∀ b < r.bandCount, ∀ i < r.height, ∀ j < r.width,
    1 ≤ b → (r.data b i j).isFinite = true

instance (r : Raster) : Decidable (FeatureBandsFinite r) := by
  unfold FeatureBandsFinite; infer_instance

/-! ## Row-major flattening lemmas -/

lemma length_grid {α : Type} (hh ww : ℕ) (g : ℕ → ℕ → α) :
    ((List.range hh).flatMap fun a => (List.range ww).map (g a)).length
      = hh * ww := by
  induction hh with
  | zero => simp
  | succ n ih =>
    rw [List.range_succ, List.flatMap_append, List.length_append, ih]
    simp [Nat.succ_mul]

lemma getD_grid {α : Type} (g : ℕ → ℕ → α) (d : α) (ww : ℕ) :
    ∀ hh a b, a < hh → b < ww →
      ((List.range hh).flatMap fun x => (List.range ww).map (g x)).getD
        (a * ww + b) d = g a b := by
  intro hh
  induction hh with
  | zero => intro a b ha _; omega
  | succ n ih =>
    intro a b ha hb
    rw [List.range_succ, List.flatMap_append]
    rcases Nat.lt_or_ge a n with han | han
    · have hidx : a * ww + b < n * ww := by
        have h1 : (a + 1) * ww ≤ n * ww := Nat.mul_le_mul_right ww han
        have h2 : (a + 1) * ww = a * ww + ww := by ring
        omega
      rw [List.getD_append _ _ _ _ (by rw [length_grid]; exact hidx)]
      exact ih a b han hb
    · have haeq : a = n := by omega
      subst haeq
      rw [List.getD_append_right _ _ _ _ (by rw [length_grid]; omega)]
      rw [length_grid]
      have hsub : a * ww + b - a * ww = b := by omega
      rw [hsub]
      simp only [List.flatMap_cons, List.flatMap_nil, List.append_nil]
      have hb' : b < ((List.range ww).map (g a)).length := by
        simpa using hb
      rw [List.getD_eq_getElem _ _ hb', List.getElem_map, List.getElem_range]

/-! ## Behaviour of the chunk loop -/

/-- The cumulative effect of the per-window surface writes. -/
noncomputable def applyWindows (mp : ModelPair) (r : Raster) (ws : List Window)
    (surf : ℕ → ℕ → ℝ) : ℕ → ℕ → ℝ :=
  ws.foldl (fun s wd => writeWindow s wd (windowProbs mp r wd)) surf

lemma runWindows_error_of_invalid {mp : ModelPair} {r : Raster}
    {ws : List Window} {surf : ℕ → ℕ → ℝ}
    (hwidth : ∀ wd ∈ ws, windowWidthOk r wd = true)
    (hbad : ∃ wd ∈ ws, windowHasInvalid r wd = true) :
    runWindows mp r ws surf = .error .invalidInputError := by
  induction ws generalizing surf with
  | nil => obtain ⟨wd, hwd, _⟩ := hbad; cases hwd
  | cons wd rest ih =>
    obtain ⟨wd', hwd', hbad'⟩ := hbad
    rw [runWindows]
    rcases List.mem_cons.1 hwd' with rfl | hmem
    · rw [if_pos hbad']
    · by_cases hinv : windowHasInvalid r wd = true
      · rw [if_pos hinv]
      · rw [if_neg hinv, if_pos (hwidth wd (.head _))]
        exact ih (fun w h => hwidth w (.tail _ h)) ⟨wd', hmem, hbad'⟩

lemma runWindows_ok_of_valid {mp : ModelPair} {r : Raster}
    {ws : List Window} {surf : ℕ → ℕ → ℝ}
    (hok : ∀ wd ∈ ws, windowHasInvalid r wd = false)
    (hwidth : ∀ wd ∈ ws, windowWidthOk r wd = true) :
    runWindows mp r ws surf = .ok (applyWindows mp r ws surf) := by
  induction ws generalizing surf with
  | nil => rfl
  | cons wd rest ih =>
    rw [runWindows, if_neg (by rw [hok wd (.head _)]; simp),
      if_pos (hwidth wd (.head _))]
    exact ih (fun wd' h => hok wd' (.tail _ h))
      (fun wd' h => hwidth wd' (.tail _ h))

/-- Whatever the band count, a NaN/infinite feature value somewhere in the
window list makes the loop abort with some error (the invalid-input error,
or the width mismatch of an earlier window): it never completes. -/
lemma runWindows_aborts_of_invalid {mp : ModelPair} {r : Raster}
    {ws : List Window} {surf : ℕ → ℕ → ℝ}
    (hbad : ∃ wd ∈ ws, windowHasInvalid r wd = true) :
    ∃ e, runWindows mp r ws surf = .error e := by
  induction ws generalizing surf with
  | nil => obtain ⟨wd, hwd, _⟩ := hbad; cases hwd
  | cons wd rest ih =>
    obtain ⟨wd', hwd', hbad'⟩ := hbad
    rw [runWindows]
    by_cases hinv : windowHasInvalid r wd = true
    · exact ⟨.invalidInputError, by rw [if_pos hinv]⟩
    · rw [if_neg hinv]
      by_cases hwk : windowWidthOk r wd = true
      · rw [if_pos hwk]
        refine ih ⟨wd', ?_, hbad'⟩
        rcases List.mem_cons.1 hwd' with rfl | hmem
        · exact absurd hbad' hinv
        · exact hmem
      · exact ⟨.processingError, by rw [if_neg hwk]⟩

/-- When no window holds a NaN/infinite feature value, the loop never aborts
with the invalid-input error (it returns the surface, or the width-mismatch
processing error). -/
lemma runWindows_ne_invalidInput_of_valid {mp : ModelPair} {r : Raster}
    {ws : List Window} {surf : ℕ → ℕ → ℝ}
    (hok : ∀ wd ∈ ws, windowHasInvalid r wd = false) :
    runWindows mp r ws surf ≠ .error .invalidInputError := by
  induction ws generalizing surf with
  | nil =>
    rw [runWindows]
    exact fun h => Except.noConfusion h
  | cons wd rest ih =>
    rw [runWindows, if_neg (by rw [hok wd (.head _)]; simp)]
    by_cases hwk : windowWidthOk r wd = true
    · rw [if_pos hwk]
      exact ih fun wd' h => hok wd' (.tail _ h)
    · rw [if_neg hwk]
      exact fun h => PredictError.noConfusion (Except.error.inj h)

/-- With exactly 11 bands, every feature row has the scaler's expected width
(`band_count - 1 = 10`), so the width check always passes. -/
lemma windowWidthOk_of_eleven {r : Raster} (h11 : r.bandCount = 11)
    (wd : Window) : windowWidthOk r wd = true := by
  rw [windowWidthOk, List.all_eq_true]
  intro fv hfv
  simp only [windowFeatures, List.mem_flatMap, List.mem_map, List.mem_range]
    at hfv
  obtain ⟨a, _, b, _, rfl⟩ := hfv
  simp [featuresAt, h11, scalerWidth]

lemma applyWindows_of_not_contains {mp : ModelPair} {r : Raster}
    {ws : List Window} {surf : ℕ → ℕ → ℝ} {i j : ℕ}
    (hno : ∀ wd ∈ ws, ¬ wd.Contains i j) :
    applyWindows mp r ws surf i j = surf i j := by
  induction ws generalizing surf with
  | nil => rfl
  | cons wd rest ih =>
    have hstep : applyWindows mp r (wd :: rest) surf =
        applyWindows mp r rest (writeWindow surf wd (windowProbs mp r wd)) :=
      rfl
    rw [hstep, ih fun wd' h => hno wd' (.tail _ h)]
    simp only [writeWindow]
    exact if_neg (hno wd (.head _))

lemma applyWindows_of_unique {mp : ModelPair} {r : Raster}
    {ws : List Window} {surf : ℕ → ℕ → ℝ} {wd : Window} {i j : ℕ}
    (hnd : ws.Nodup) (hmem : wd ∈ ws) (hcont : wd.Contains i j)
    (huniq : ∀ wd' ∈ ws, wd'.Contains i j → wd' = wd) :
    applyWindows mp r ws surf i j =
      (windowProbs mp r wd).getD
        ((i - wd.row_off) * wd.width + (j - wd.col_off)) 0 := by
  induction ws generalizing surf with
  | nil => cases hmem
  | cons wd₀ rest ih =>
    have hstep : applyWindows mp r (wd₀ :: rest) surf =
        applyWindows mp r rest (writeWindow surf wd₀ (windowProbs mp r wd₀)) :=
      rfl
    rw [hstep]
    rcases List.mem_cons.1 hmem with rfl | hmem'
    · have hno : ∀ wd' ∈ rest, ¬ wd'.Contains i j := fun wd' h hc =>
        (List.nodup_cons.1 hnd).1 ((huniq wd' (.tail _ h) hc) ▸ h)
      rw [applyWindows_of_not_contains hno]
      simp only [writeWindow]
      rw [if_pos hcont]
    · exact ih (List.nodup_cons.1 hnd).2 hmem'
        fun wd' h hc => huniq wd' (.tail _ h) hc

/-- Inside its window, the written surface entry is the score of the pixel's
own feature vector (the row-major reshape sends window-relative `(a, b)` to
flat index `a * width + b`). -/
lemma windowProbs_getD {mp : ModelPair} {r : Raster} {wd : Window} {i j : ℕ}
    (hcont : wd.Contains i j) :
    (windowProbs mp r wd).getD
        ((i - wd.row_off) * wd.width + (j - wd.col_off)) 0 =
      scoreFeature mp (featuresAt r i j) := by
  obtain ⟨h₁, h₂, h₃, h₄⟩ := hcont
  have hgrid : windowProbs mp r wd =
      (List.range wd.height).flatMap fun a =>
        (List.range wd.width).map fun b =>
          scoreFeature mp (featuresAt r (wd.row_off + a) (wd.col_off + b)) := by
    simp only [windowProbs, windowFeatures, List.map_flatMap, List.map_map]
    rfl
  rw [hgrid,
    getD_grid
      (fun a b => scoreFeature mp (featuresAt r (wd.row_off + a) (wd.col_off + b)))
      0 wd.width wd.height (i - wd.row_off) (j - wd.col_off)
      (by omega) (by omega)]
  have ei : wd.row_off + (i - wd.row_off) = i := by omega
  have ej : wd.col_off + (j - wd.col_off) = j := by omega
  rw [ei, ej]

/-- A window whose extent lies inside the raster contains no invalid feature
data when all feature bands are finite. -/
lemma windowHasInvalid_eq_false {r : Raster} {wd : Window}
    (hrow : wd.row_off + wd.height ≤ r.height)
    (hcol : wd.col_off + wd.width ≤ r.width)
    (hfin : FeatureBandsFinite r) :
    windowHasInvalid r wd = false := by
  rw [windowHasInvalid, List.any_eq_false]
  intro fv hfv
  rw [Bool.not_eq_true, List.any_eq_false]
  intro v hv
  simp only [windowFeatures, List.mem_flatMap, List.mem_map, List.mem_range]
    at hfv
  obtain ⟨a, ha, b, hb, rfl⟩ := hfv
  simp only [featuresAt, List.mem_map, List.mem_range] at hv
  obtain ⟨bi, hbi, rfl⟩ := hv
  rw [hfin (bi + 1) (by omega) _ (by omega) _ (by omega) (by omega)]
  simp

lemma logistic_nonneg (d : ℝ) : 0 ≤ logistic d := by
  rw [logistic]
  positivity

lemma logistic_le_one (d : ℝ) : logistic d ≤ 1 := by
  rw [logistic, div_le_one (by positivity)]
  have := Real.exp_pos (-d)
  linarith

lemma windowHasInvalid_eq_true {r : Raster} {wd : Window} {b i j : ℕ}
    (hcont : wd.Contains i j) (hb1 : 1 ≤ b) (hb2 : b < r.bandCount)
    (hbad : (r.data b i j).isFinite = false) :
    windowHasInvalid r wd = true := by
  obtain ⟨h₁, h₂, h₃, h₄⟩ := hcont
  rw [windowHasInvalid, List.any_eq_true]
  refine ⟨featuresAt r i j, ?_, ?_⟩
  · simp only [windowFeatures, List.mem_flatMap, List.mem_map, List.mem_range]
    refine ⟨i - wd.row_off, by omega, j - wd.col_off, by omega, ?_⟩
    congr 1 <;> omega
  · rw [List.any_eq_true]
    refine ⟨r.data b i j, ?_, ?_⟩
    · simp only [featuresAt, List.mem_map, List.mem_range]
      exact ⟨b - 1, by omega, by congr 1; omega⟩
    · rw [hbad]; rfl

/-! ## Example inputs used by the witnesses -/

/-- A stand-in for the pre-fitted pair: identity scaler, constant decision. -/
def exMp : ModelPair := ⟨fun v => v, fun _ => 0⟩

/-- A 1×1 raster with 11 bands, all samples finite. -/
def exR11 : Raster := ⟨1, 1, 11, fun _ _ _ => .fin 0⟩

/-- A 1×1 raster with 11 bands whose (dropped) first band is NaN and whose
remaining bands are finite. -/
def exRNan : Raster := ⟨1, 1, 11, fun b _ _ => if b = 0 then .nan else .fin 0⟩

/-- A 1×1 raster with 11 bands carrying a NaN in a feature band (band 2,
0-indexed 1). -/
def exRBad : Raster := ⟨1, 1, 11, fun b _ _ => if b = 1 then .nan else .fin 0⟩

/-- A 1×1 raster with only 10 bands. -/
def exR10 : Raster := ⟨1, 1, 10, fun _ _ _ => .fin 0⟩

/-- A 1×1 raster with 12 bands, all samples finite. -/
def exR12 : Raster := ⟨1, 1, 12, fun _ _ _ => .fin 0⟩

/-- A 1×2 raster with 12 bands whose only NaN sits in feature band 2
(0-indexed 1) at pixel `(0, 1)` — beyond the first chunk-size-1 window. -/
def exR12N : Raster :=
  ⟨1, 2, 12, fun b _ j => if b = 1 ∧ j = 1 then .nan else .fin 0⟩

/-- A 1×1 raster with 12 bands whose (dropped) first band is NaN and whose
remaining bands are finite. -/
def exR12B0 : Raster :=
  ⟨1, 1, 12, fun b _ _ => if b = 0 then .nan else .fin 0⟩

/-! ## Claim theorems for the inference pipeline -/

/-- C2 (amended): for every raster with exactly 11 bands — the only band
count whose feature width `band_count - 1` matches the scaler's fixed input
width 10 — and no NaN/infinite feature values, `predict_geotiff` returns a
probability surface of exactly `height * width` entries in which every
pixel's value is the logistic transform `1 / (1 + exp (-d))` of that pixel's
decision score, a value in `[0, 1]`.  For band counts above 11 the run
aborts at `scaler.transform` instead (see the counterexample). -/
theorem probability_surface_complete (mp : ModelPair) (r : Raster) (c : ℕ)
    (hc : 1 ≤ c) (hband : r.bandCount = 11) (hfin : FeatureBandsFinite r) :
    ∃ surf,
      predictGeotiff mp r c = .ok (getRgbImage r, surf) ∧
      (surfaceFlatten surf r.height r.width).length = r.height * r.width ∧
      ∀ i < r.height, ∀ j < r.width,
        surf i j =
          logistic (mp.decision (mp.scaler ((featuresAt r i j).map Val.toRat))) ∧
        0 ≤ surf i j ∧ surf i j ≤ 1 := by
  have hvalid : ∀ wd ∈ windows r.height r.width c,
      windowHasInvalid r wd = false := fun wd hwd => by
    obtain ⟨hrow, hcol, _⟩ := windows_bounds hc hwd
    exact windowHasInvalid_eq_false hrow hcol hfin
  refine ⟨applyWindows mp r (windows r.height r.width c) (fun _ _ => 0),
    ?_, ?_, ?_⟩
  · rw [predictGeotiff, if_neg (by omega),
      runWindows_ok_of_valid hvalid fun wd _ => windowWidthOk_of_eleven hband wd]
  · exact length_grid r.height r.width fun i j =>
      applyWindows mp r (windows r.height r.width c) (fun _ _ => 0) i j
  · intro i hi j hj
    have hval : applyWindows mp r (windows r.height r.width c)
        (fun _ _ => 0) i j = scoreFeature mp (featuresAt r i j) := by
      rw [applyWindows_of_unique (windows_nodup _ _ _ hc)
          (windowAt_mem hc hi hj) (windowAt_contains hc hi hj)
          (fun wd' h hc' => contains_eq_windowAt hc hi hj h hc'),
        windowProbs_getD (windowAt_contains hc hi hj)]
    exact ⟨hval, hval ▸ logistic_nonneg _, hval ▸ logistic_le_one _⟩

/-- Witness for C2 at the all-finite 11-band raster `exR11`. -/
theorem probability_surface_complete_witness :
    ((1:ℕ) ≤ 1 ∧ exR11.bandCount = 11 ∧ FeatureBandsFinite exR11) ∧
    (∃ surf,
      predictGeotiff exMp exR11 1 = .ok (getRgbImage exR11, surf) ∧
      (surfaceFlatten surf exR11.height exR11.width).length =
        exR11.height * exR11.width ∧
      ∀ i < exR11.height, ∀ j < exR11.width,
        surf i j = logistic
          (exMp.decision (exMp.scaler ((featuresAt exR11 i j).map Val.toRat))) ∧
        0 ≤ surf i j ∧ surf i j ≤ 1) :=
  ⟨⟨by decide, by decide, by decide⟩,
   probability_surface_complete exMp exR11 1 (by decide) (by decide) (by decide)⟩

/-- C2 counterexample: the 12-band, all-finite 1×1 raster `exR12` satisfies
the original claim's hypotheses (band count ≥ 11, no non-finite feature
values), but the run aborts at the scaler's width check with the generic
processing error instead of returning a probability surface. -/
theorem probability_surface_refuted :
    (11 ≤ exR12.bandCount ∧ FeatureBandsFinite exR12) ∧
    predictGeotiff exMp exR12 1 = .error .processingError := by
  refine ⟨⟨by decide, by decide⟩, ?_⟩
  rw [predictGeotiff, if_neg (by decide)]
  rw [show windows exR12.height exR12.width 1 = [⟨0, 0, 1, 1⟩] by decide]
  rw [runWindows, if_neg (by decide), if_neg (by decide)]

/-- C4 (amended): a NaN or infinite value anywhere in the feature bands (any
0-indexed band `1 ≤ b < band_count` at an in-bounds pixel) aborts the whole
run with an error — no partial surface is ever returned — and when the
raster has exactly 11 bands the error is `InvalidInputError`.  With more
than 11 bands, the scaler's width mismatch can abort the run with the
generic processing error before the invalid value is reached (see the
counterexample). -/
theorem invalid_input_aborts (mp : ModelPair) (r : Raster) (c b i j : ℕ)
    (hc : 1 ≤ c) (hband : 11 ≤ r.bandCount)
    (hb1 : 1 ≤ b) (hb2 : b < r.bandCount)
    (hi : i < r.height) (hj : j < r.width)
    (hbad : (r.data b i j).isFinite = false) :
    (∃ e, predictGeotiff mp r c = .error e) ∧
    (r.bandCount = 11 →
      predictGeotiff mp r c = .error .invalidInputError) := by
  have hbadwin : ∃ wd ∈ windows r.height r.width c,
      windowHasInvalid r wd = true :=
    ⟨windowAt r.height r.width c i j, windowAt_mem hc hi hj,
     windowHasInvalid_eq_true (windowAt_contains hc hi hj) hb1 hb2 hbad⟩
  constructor
  · obtain ⟨e, he⟩ :=
      @runWindows_aborts_of_invalid mp r (windows r.height r.width c)
        (fun _ _ => 0) hbadwin
    exact ⟨e, by rw [predictGeotiff, if_neg (by omega), he]⟩
  · intro h11
    rw [predictGeotiff, if_neg (by omega),
      runWindows_error_of_invalid
        (fun wd _ => windowWidthOk_of_eleven h11 wd) hbadwin]

/-- Witness for C4 at `exRBad` (NaN in band 2 of a 1×1, 11-band raster). -/
theorem invalid_input_aborts_witness :
    ((1:ℕ) ≤ 1 ∧ 11 ≤ exRBad.bandCount ∧ (1:ℕ) ≤ 1 ∧ 1 < exRBad.bandCount ∧
      0 < exRBad.height ∧ 0 < exRBad.width ∧
      (exRBad.data 1 0 0).isFinite = false) ∧
    ((∃ e, predictGeotiff exMp exRBad 1 = .error e) ∧
      (exRBad.bandCount = 11 →
        predictGeotiff exMp exRBad 1 = .error .invalidInputError)) :=
  ⟨⟨by decide, by decide, by decide, by decide, by decide, by decide, by decide⟩,
   invalid_input_aborts exMp exRBad 1 1 0 0 (by decide) (by decide) (by decide)
     (by decide) (by decide) (by decide) (by decide)⟩

/-- C4 counterexample: `exR12N` is a 1×2, 12-band raster whose only NaN sits
in feature band 2 at pixel `(0, 1)` — the second window under chunk size 1.
The first window passes the NaN check but fails the scaler's width check, so
the run aborts with the generic processing error, not `InvalidInputError`. -/
theorem invalid_input_error_kind_refuted :
    (11 ≤ exR12N.bandCount ∧ 1 < exR12N.bandCount ∧
      0 < exR12N.height ∧ 1 < exR12N.width ∧
      (exR12N.data 1 0 1).isFinite = false) ∧
    predictGeotiff exMp exR12N 1 = .error .processingError ∧
    predictGeotiff exMp exR12N 1 ≠ .error .invalidInputError := by
  have hrun : predictGeotiff exMp exR12N 1 = .error .processingError := by
    rw [predictGeotiff, if_neg (by decide)]
    rw [show windows exR12N.height exR12N.width 1 =
        [⟨0, 0, 1, 1⟩, ⟨1, 0, 1, 1⟩] by decide]
    rw [runWindows, if_neg (by decide), if_neg (by decide)]
  refine ⟨⟨by decide, by decide, by decide, by decide, by decide⟩, hrun, ?_⟩
  rw [hrun]
  exact fun h => PredictError.noConfusion (Except.error.inj h)

/-- C5: fewer than 11 bands aborts the run with `BandCountError` before any
inference output is created. -/
theorem band_count_aborts (mp : ModelPair) (r : Raster) (c : ℕ)
    (hband : r.bandCount < 11) :
    predictGeotiff mp r c = .error .bandCountError := by
  rw [predictGeotiff]
  exact if_pos hband

/-- Witness for C5 at the 10-band raster `exR10`. -/
theorem band_count_aborts_witness :
    exR10.bandCount < 11 ∧
    predictGeotiff exMp exR10 1 = .error .bandCountError :=
  ⟨by decide, band_count_aborts exMp exR10 1 (by decide)⟩

/-- C7: determinism — two runs of the inference pipeline on the same raster
with the same scaler/classifier pair produce identical outputs (the pipeline
has no source of randomness). -/
theorem inference_deterministic (mp : ModelPair) (r : Raster) (c : ℕ)
    (out₁ out₂ : Except PredictError ((ℕ → ℕ → Fin 3 → ℚ) × (ℕ → ℕ → ℝ)))
    (h₁ : predictGeotiff mp r c = out₁) (h₂ : predictGeotiff mp r c = out₂) :
    out₁ = out₂ := h₁ ▸ h₂ ▸ rfl

/-- Witness for C7: two runs on `exR11` with `exMp`. -/
theorem inference_deterministic_witness :
    predictGeotiff exMp exR11 1 = predictGeotiff exMp exR11 1 ∧
    predictGeotiff exMp exR11 1 = predictGeotiff exMp exR11 1 :=
  ⟨rfl, inference_deterministic exMp exR11 1 _ _ rfl rfl⟩

/-- When no NaN/infinite value occurs in the feature bands, the run can
never abort with the invalid-input error, whatever the band count. -/
lemma predictGeotiff_ne_invalidInput {mp : ModelPair} {r : Raster} {c : ℕ}
    (hband : ¬ r.bandCount < 11)
    (hvalid : ∀ wd ∈ windows r.height r.width c,
      windowHasInvalid r wd = false) :
    predictGeotiff mp r c ≠ .error .invalidInputError := by
  rw [predictGeotiff, if_neg hband]
  have hne :=
    @runWindows_ne_invalidInput_of_valid mp r (windows r.height r.width c)
      (fun _ _ => 0) hvalid
  cases hrw : runWindows mp r (windows r.height r.width c) (fun _ _ => 0) with
  | error e =>
    cases e with
    | bandCountError =>
      exact fun h => PredictError.noConfusion (Except.error.inj h)
    | invalidInputError => exact absurd hrw hne
    | processingError =>
      exact fun h => PredictError.noConfusion (Except.error.inj h)
  | ok s => exact fun h => Except.noConfusion h

/-- C10 (amended): non-finite values confined to the dropped first band
(0-indexed band 0) never trigger the NaN/infinity abort — the finiteness
hypothesis below constrains only bands `1 .. band_count - 1`, band 0 is
arbitrary, and the run never fails with `InvalidInputError`; when the raster
has exactly 11 bands it completes with a full probability surface.  With
more than 11 bands the run instead aborts at the scaler's width check with
the generic processing error, even though the NaN check passes (see the
counterexample). -/
theorem band_one_nonfinite_ignored (mp : ModelPair) (r : Raster) (c : ℕ)
    (hc : 1 ≤ c) (hband : 11 ≤ r.bandCount) (hfin : FeatureBandsFinite r) :
    predictGeotiff mp r c ≠ .error .invalidInputError ∧
    (r.bandCount = 11 →
      ∃ surf,
        predictGeotiff mp r c = .ok (getRgbImage r, surf) ∧
        ∀ i < r.height, ∀ j < r.width,
          surf i j =
            logistic (mp.decision (mp.scaler ((featuresAt r i j).map Val.toRat)))) := by
  have hvalid : ∀ wd ∈ windows r.height r.width c,
      windowHasInvalid r wd = false := fun wd hwd => by
    obtain ⟨hrow, hcol, _⟩ := windows_bounds hc hwd
    exact windowHasInvalid_eq_false hrow hcol hfin
  constructor
  · exact predictGeotiff_ne_invalidInput (by omega) hvalid
  · intro h11
    refine ⟨applyWindows mp r (windows r.height r.width c) (fun _ _ => 0),
      ?_, ?_⟩
    · rw [predictGeotiff, if_neg (by omega),
        runWindows_ok_of_valid hvalid
          fun wd _ => windowWidthOk_of_eleven h11 wd]
    · intro i hi j hj
      rw [applyWindows_of_unique (windows_nodup _ _ _ hc)
          (windowAt_mem hc hi hj) (windowAt_contains hc hi hj)
          (fun wd' h hc' => contains_eq_windowAt hc hi hj h hc'),
        windowProbs_getD (windowAt_contains hc hi hj)]
      rfl

/-- Witness for C10 at `exRNan`, an 11-band raster whose band 0 is NaN
everywhere. -/
theorem band_one_nonfinite_ignored_witness :
    ((1:ℕ) ≤ 1 ∧ 11 ≤ exRNan.bandCount ∧ FeatureBandsFinite exRNan ∧
      (exRNan.data 0 0 0).isFinite = false) ∧
    (predictGeotiff exMp exRNan 1 ≠ .error .invalidInputError ∧
      (exRNan.bandCount = 11 →
        ∃ surf,
          predictGeotiff exMp exRNan 1 = .ok (getRgbImage exRNan, surf) ∧
          ∀ i < exRNan.height, ∀ j < exRNan.width,
            surf i j = logistic
              (exMp.decision
                (exMp.scaler ((featuresAt exRNan i j).map Val.toRat))))) :=
  ⟨⟨by decide, by decide, by decide, by decide⟩,
   band_one_nonfinite_ignored exMp exRNan 1 (by decide) (by decide) (by decide)⟩

/-- C10 counterexample: `exR12B0` is a 1×1, 12-band raster whose non-finite
values are confined to the dropped band 1 and which is otherwise valid
(band count ≥ 11, feature bands finite), yet the run does not complete: it
aborts at the scaler's width check with the generic processing error. -/
theorem band_one_ignored_refuted :
    (11 ≤ exR12B0.bandCount ∧ FeatureBandsFinite exR12B0 ∧
      (exR12B0.data 0 0 0).isFinite = false) ∧
    predictGeotiff exMp exR12B0 1 = .error .processingError ∧
    predictGeotiff exMp exR12B0 1 ≠ .error .invalidInputError := by
  have hrun : predictGeotiff exMp exR12B0 1 = .error .processingError := by
    rw [predictGeotiff, if_neg (by decide)]
    rw [show windows exR12B0.height exR12B0.width 1 = [⟨0, 0, 1, 1⟩] by decide]
    rw [runWindows, if_neg (by decide), if_neg (by decide)]
  refine ⟨⟨by decide, by decide, by decide⟩, hrun, ?_⟩
  rw [hrun]
  exact fun h => PredictError.noConfusion (Except.error.inj h)

/-! ## `get_rgb_image` lemmas -/

lemma foldl_min_le {α : Type} [LinearOrder α] :
    ∀ (qs : List α) (q x : α), x ∈ q :: qs → qs.foldl min q ≤ x := by
  intro qs
  induction qs with
  | nil =>
    intro q x hx
    rw [List.mem_singleton] at hx
    exact hx ▸ le_refl q
  | cons p ps ih =>
    intro q x hx
    rcases List.mem_cons.1 hx with rfl | hx'
    · exact le_trans (ih (min x p) (min x p) (.head _)) (min_le_left x p)
    · rcases List.mem_cons.1 hx' with rfl | hx''
      · exact le_trans (ih (min q x) (min q x) (.head _)) (min_le_right q x)
      · exact ih (min q p) x (.tail _ hx'')

lemma foldl_max_le {α : Type} [LinearOrder α] :
    ∀ (qs : List α) (q x : α), x ∈ q :: qs → x ≤ qs.foldl max q := by
  intro qs
  induction qs with
  | nil =>
    intro q x hx
    rw [List.mem_singleton] at hx
    exact hx ▸ le_refl q
  | cons p ps ih =>
    intro q x hx
    rcases List.mem_cons.1 hx with rfl | hx'
    · exact le_trans (le_max_left x p) (ih (max x p) (max x p) (.head _))
    · rcases List.mem_cons.1 hx' with rfl | hx''
      · exact le_trans (le_max_right q x) (ih (max q x) (max q x) (.head _))
      · exact ih (max q p) x (.tail _ hx'')

lemma listMin_le {l : List ℚ} {x : ℚ} (hx : x ∈ l) : listMin l ≤ x := by
  cases l with
  | nil => cases hx
  | cons q qs => exact foldl_min_le qs q x hx

lemma le_listMax {l : List ℚ} {x : ℚ} (hx : x ∈ l) : x ≤ listMax l := by
  cases l with
  | nil => cases hx
  | cons q qs => exact foldl_max_le qs q x hx

/-- The sample of channel `ch` at pixel `(i, j)` is among the stacked values
of the three designated bands. -/
lemma mem_rgbVals {r : Raster} {i j : ℕ} (hi : i < r.height) (hj : j < r.width)
    (ch : Fin 3) : r.data (rgbBand ch) i j ∈ rgbVals r := by
  simp only [rgbVals, List.mem_flatMap, List.mem_range]
  refine ⟨i, hi, j, hj, ?_⟩
  fin_cases ch <;> simp [rgbBand]

lemma nanminD_le {l : List Val} {v : Val} (hv : v ∈ l)
    (hfin : v.isFinite = true) : nanminD l ≤ v.toRat :=
  listMin_le (List.mem_map_of_mem Val.toRat (List.mem_filter.2 ⟨hv, hfin⟩))

lemma le_nanmaxD {l : List Val} {v : Val} (hv : v ∈ l)
    (hfin : v.isFinite = true) : v.toRat ≤ nanmaxD l :=
  le_listMax (List.mem_map_of_mem Val.toRat (List.mem_filter.2 ⟨hv, hfin⟩))

/-- C6: the band compositor reads 1-indexed bands 7, 4 and 3 (0-indexed 6, 3,
2) as red, green, blue; rescales every channel by the single global min and
max over all three channels (so the scaled in-bounds values are in `[0,1]`);
and when the global min equals the global max it returns the all-zero image
instead of dividing by zero. -/
theorem rgb_composite (r : Raster)
    (hfin : ∀ v ∈ rgbVals r, v.isFinite = true) :
    (∀ v ∈ rgbVals r,
      nanminD (rgbVals r) ≤ v.toRat ∧ v.toRat ≤ nanmaxD (rgbVals r)) ∧
    (nanminD (rgbVals r) < nanmaxD (rgbVals r) →
      (∀ i j,
        getRgbImage r i j 0 =
          ((r.data 6 i j).toRat - nanminD (rgbVals r)) /
            (nanmaxD (rgbVals r) - nanminD (rgbVals r)) ∧
        getRgbImage r i j 1 =
          ((r.data 3 i j).toRat - nanminD (rgbVals r)) /
            (nanmaxD (rgbVals r) - nanminD (rgbVals r)) ∧
        getRgbImage r i j 2 =
          ((r.data 2 i j).toRat - nanminD (rgbVals r)) /
            (nanmaxD (rgbVals r) - nanminD (rgbVals r))) ∧
      (∀ i < r.height, ∀ j < r.width, ∀ ch : Fin 3,
        0 ≤ getRgbImage r i j ch ∧ getRgbImage r i j ch ≤ 1)) ∧
    (nanminD (rgbVals r) = nanmaxD (rgbVals r) →
      ∀ i j, ∀ ch : Fin 3, getRgbImage r i j ch = 0) := by
  refine ⟨fun v hv => ⟨nanminD_le hv (hfin v hv), le_nanmaxD hv (hfin v hv)⟩,
    fun hlt => ⟨?_, ?_⟩, fun heq => ?_⟩
  · intro i j
    simp only [getRgbImage, if_pos hlt]
    exact ⟨rfl, rfl, rfl⟩
  · intro i hi j hj ch
    simp only [getRgbImage, if_pos hlt]
    have hmem := mem_rgbVals hi hj ch
    have h₁ := nanminD_le hmem (hfin _ hmem)
    have h₂ := le_nanmaxD hmem (hfin _ hmem)
    constructor
    · exact div_nonneg (by linarith) (by linarith)
    · rw [div_le_one (by linarith)]
      linarith
  · intro i j ch
    have hnlt : ¬ nanminD (rgbVals r) < nanmaxD (rgbVals r) := by
      rw [heq]; exact lt_irrefl _
    simp only [getRgbImage, if_neg hnlt]

/-- Witness for C6 at the all-finite raster `exR11`. -/
theorem rgb_composite_witness :
    (∀ v ∈ rgbVals exR11, v.isFinite = true) ∧
    ((∀ v ∈ rgbVals exR11,
        nanminD (rgbVals exR11) ≤ v.toRat ∧
        v.toRat ≤ nanmaxD (rgbVals exR11)) ∧
     (nanminD (rgbVals exR11) < nanmaxD (rgbVals exR11) →
       (∀ i j,
         getRgbImage exR11 i j 0 =
           ((exR11.data 6 i j).toRat - nanminD (rgbVals exR11)) /
             (nanmaxD (rgbVals exR11) - nanminD (rgbVals exR11)) ∧
         getRgbImage exR11 i j 1 =
           ((exR11.data 3 i j).toRat - nanminD (rgbVals exR11)) /
             (nanmaxD (rgbVals exR11) - nanminD (rgbVals exR11)) ∧
         getRgbImage exR11 i j 2 =
           ((exR11.data 2 i j).toRat - nanminD (rgbVals exR11)) /
             (nanmaxD (rgbVals exR11) - nanminD (rgbVals exR11))) ∧
       (∀ i < exR11.height, ∀ j < exR11.width, ∀ ch : Fin 3,
         0 ≤ getRgbImage exR11 i j ch ∧ getRgbImage exR11 i j ch ≤ 1)) ∧
     (nanminD (rgbVals exR11) = nanmaxD (rgbVals exR11) →
       ∀ i j, ∀ ch : Fin 3, getRgbImage exR11 i j ch = 0)) :=
  ⟨by decide, rgb_composite exR11 (by decide)⟩

/-! ## Statistics (`plot_predictions`, statistical-analysis tab) -/

/-- The array `np.where(probability_predictions >= threshold, 1, 0)`, flattened
row-major. -/
noncomputable def binaryPredictions (surf : ℕ → ℕ → ℝ) (h w : ℕ) (t : ℝ) :
    List ℕ :=
  (List.range h).flatMap fun i =>
    (List.range w).map fun j => if t ≤ surf i j then 1 else 0

/-- The count `np.sum(binary_predictions == 1)`. -/
noncomputable def highRiskCount (surf : ℕ → ℕ → ℝ) (h w : ℕ) (t : ℝ) : ℕ :=
  (binaryPredictions surf h w t).countP (· == 1)

/-- The count `np.sum(binary_predictions == 0)`. -/
noncomputable def lowRiskCount (surf : ℕ → ℕ → ℝ) (h w : ℕ) (t : ℝ) : ℕ :=
  (binaryPredictions surf h w t).countP (· == 0)

/-- The sum `total_pixels = high_risk_count + low_risk_count`. -/
noncomputable def totalPixels (surf : ℕ → ℕ → ℝ) (h w : ℕ) (t : ℝ) : ℕ :=
  highRiskCount surf h w t + lowRiskCount surf h w t

/-- The ratio `(high_risk_count / total_pixels) * 100`. -/
noncomputable def highRiskPercentage (surf : ℕ → ℕ → ℝ) (h w : ℕ) (t : ℝ) :
    ℝ :=
  ((highRiskCount surf h w t : ℝ) / (totalPixels surf h w t : ℝ)) * 100

/-- The ratio `(low_risk_count / total_pixels) * 100`. -/
noncomputable def lowRiskPercentage (surf : ℕ → ℕ → ℝ) (h w : ℕ) (t : ℝ) :
    ℝ :=
  ((lowRiskCount surf h w t : ℝ) / (totalPixels surf h w t : ℝ)) * 100

lemma countP_one_add_countP_zero {l : List ℕ} (hl : ∀ a ∈ l, a = 0 ∨ a = 1) :
    l.countP (· == 1) + l.countP (· == 0) = l.length := by
  induction l with
  | nil => rfl
  | cons a l ih =>
    rw [List.countP_cons, List.countP_cons, List.length_cons]
    have hrec := ih fun b hb => hl b (.tail _ hb)
    rcases hl a (.head _) with rfl | rfl <;> simp <;> omega

lemma binaryPredictions_mem {surf : ℕ → ℕ → ℝ} {h w : ℕ} {t : ℝ} {a : ℕ}
    (ha : a ∈ binaryPredictions surf h w t) : a = 0 ∨ a = 1 := by
  simp only [binaryPredictions, List.mem_flatMap, List.mem_map,
    List.mem_range] at ha
  obtain ⟨i, _, j, _, rfl⟩ := ha
  by_cases hle : t ≤ surf i j
  · right; rw [if_pos hle]
  · left; rw [if_neg hle]

lemma binaryPredictions_length (surf : ℕ → ℕ → ℝ) (h w : ℕ) (t : ℝ) :
    (binaryPredictions surf h w t).length = h * w :=
  length_grid h w fun i j => if t ≤ surf i j then 1 else 0

/-- C8: for any probability surface and any threshold, the number of
high-risk and low-risk pixels partition the `h × w` grid exactly, and the
two percentages (computed over the total pixel count, no pixel excluded)
add up to exactly 100. -/
theorem statistics_consistent (surf : ℕ → ℕ → ℝ) (hh ww : ℕ) (t : ℝ)
    (h1 : 1 ≤ hh) (h2 : 1 ≤ ww) :
    highRiskCount surf hh ww t + lowRiskCount surf hh ww t = hh * ww ∧
    totalPixels surf hh ww t = hh * ww ∧
    highRiskPercentage surf hh ww t + lowRiskPercentage surf hh ww t = 100 := by
  have hcounts : highRiskCount surf hh ww t + lowRiskCount surf hh ww t
      = hh * ww := by
    rw [highRiskCount, lowRiskCount,
      countP_one_add_countP_zero fun a ha => binaryPredictions_mem ha,
      binaryPredictions_length]
  refine ⟨hcounts, hcounts, ?_⟩
  have hne : (totalPixels surf hh ww t : ℝ) ≠ 0 :=
    Nat.cast_ne_zero.2 (by
      rw [show totalPixels surf hh ww t = hh * ww from hcounts]
      exact Nat.mul_ne_zero (by omega) (by omega))
  have hHL : (highRiskCount surf hh ww t : ℝ) + (lowRiskCount surf hh ww t : ℝ)
      = (totalPixels surf hh ww t : ℝ) := by
    rw [totalPixels]; push_cast; ring
  rw [highRiskPercentage, lowRiskPercentage]
  field_simp
  linarith

/-- Witness for C8 at a constant surface on a 1×1 grid. -/
theorem statistics_consistent_witness :
    ((1:ℕ) ≤ 1 ∧ (1:ℕ) ≤ 1) ∧
    (highRiskCount (fun _ _ => (0:ℝ)) 1 1 0 +
        lowRiskCount (fun _ _ => (0:ℝ)) 1 1 0 = 1 * 1 ∧
      totalPixels (fun _ _ => (0:ℝ)) 1 1 0 = 1 * 1 ∧
      highRiskPercentage (fun _ _ => (0:ℝ)) 1 1 0 +
        lowRiskPercentage (fun _ _ => (0:ℝ)) 1 1 0 = 100) :=
  ⟨⟨by decide, by decide⟩,
   statistics_consistent (fun _ _ => 0) 1 1 0 (by decide) (by decide)⟩

/-! ## Overlay (`plot_predictions`, overlay tab) -/

/-- The colour `np.array([1, 0, 0])`: the solid red highlight. -/
def redColor : Fin 3 → ℝ := fun ch => if ch = 0 then 1 else 0

/-- The blend `overlay = rgb_image.copy(); mask = probability_predictions >= threshold;
overlay[mask] = (1 - alpha) * overlay[mask] + alpha * np.array([1, 0, 0])`.
It is a pure function of the composite image and the probability surface:
the two inputs are not modified (the code blends into a `.copy()`). -/
noncomputable def overlayImage (rgb : ℕ → ℕ → Fin 3 → ℚ)
    (surf : ℕ → ℕ → ℝ) (t alpha : ℝ) : ℕ → ℕ → Fin 3 → ℝ :=
  fun i j ch =>
    if t ≤ surf i j then
      (1 - alpha) * (rgb i j ch : ℝ) + alpha * redColor ch
    else (rgb i j ch : ℝ)

/-- C9: the overlay equals the linear blend
`(1 - alpha) * original + alpha * red` exactly at pixels whose probability is
at least the threshold and equals the original composite at all other
pixels; it is a pure function of the composite image and the probability
surface, which are left unchanged. -/
theorem overlay_blend (rgb : ℕ → ℕ → Fin 3 → ℚ) (surf : ℕ → ℕ → ℝ)
    (t alpha : ℝ) (i j : ℕ) :
    (∀ ch : Fin 3, t ≤ surf i j →
      overlayImage rgb surf t alpha i j ch =
        (1 - alpha) * (rgb i j ch : ℝ) + alpha * redColor ch) ∧
    (∀ ch : Fin 3, ¬ t ≤ surf i j →
      overlayImage rgb surf t alpha i j ch = (rgb i j ch : ℝ)) :=
  ⟨fun ch hle => by rw [overlayImage]; exact if_pos hle,
   fun ch hlt => by rw [overlayImage]; exact if_neg hlt⟩

/-- Witness for C9: a masked pixel (probability 1 ≥ threshold 0) and an
unmasked pixel (probability 0 < threshold 1) on concrete inputs. -/
theorem overlay_blend_witness :
    ((0:ℝ) ≤ 1 ∧
      overlayImage (fun _ _ _ => 0) (fun _ _ => 1) 0 (1/2) 0 0 0 =
        (1 - 1/2) * ((0:ℚ) : ℝ) + (1/2) * redColor 0) ∧
    (¬ (1:ℝ) ≤ 0 ∧
      overlayImage (fun _ _ _ => 0) (fun _ _ => 0) 1 (1/2) 0 0 0 =
        (((0:ℚ) : ℝ))) :=
  ⟨⟨zero_le_one,
    (overlay_blend (fun _ _ _ => 0) (fun _ _ => 1) 0 (1/2) 0 0).1 0 zero_le_one⟩,
   ⟨not_le.2 zero_lt_one,
    (overlay_blend (fun _ _ _ => 0) (fun _ _ => 0) 1 (1/2) 0 0).2 0
      (not_le.2 zero_lt_one)⟩⟩

/-! ## Feature-vector width (C3) -/

/-- C3 is refuted by the code: `features = data.reshape(band_count - 1, -1).T`
keeps all bands but the first, so a feature vector has `band_count - 1`
entries — 11, not 10, for a 12-band raster, although the band-count check
accepts any raster with at least 11 bands and the pre-fitted scaler expects
width 10. -/
theorem feature_width_mismatch :
    11 ≤ exR12.bandCount ∧
    (featuresAt exR12 0 0).length = exR12.bandCount - 1 ∧
    (featuresAt exR12 0 0).length = 11 ∧
    (featuresAt exR12 0 0).length ≠ 10 := by
  refine ⟨by decide, ?_, ?_, ?_⟩ <;> · simp [featuresAt, exR12]

end DroughtApp
